import Mathlib

/-!
Verification of the WSD `Trainer` (src/Trainer.py) against its
natural-language specification.

Shallow embedding conventions:
* Python float values that arise in the control flow are modelled as `ℚ`.
  The float infinities used only as comparison sentinels (`best_loss = inf`,
  `best_r = -inf`) are modelled by `Option ℚ` with `none` as the sentinel.
  A float NaN (which arises as `np.mean([])` when a batch-loss list is
  empty) is modelled by `none` in `Option ℚ`-valued losses; every float
  comparison against NaN is false, which the `Option` matches reproduce.
* The external model, the Pearson correlation and the dev-set loss are
  opaque collaborators: their per-epoch outcomes are abstracted as
  sequences `ℕ → ℚ` (or `ℕ → Option ℚ` where NaN can occur).
* Python list slicing `X[i:j]` clips at `len(X)`; `clipped` reproduces the
  index set of such a slice.
-/

namespace WSD

/-- Batch-range loop shared by `Trainer.train`, `Trainer.predict` and
`Trainer.predict_grad` (src/Trainer.py lines 135-181, 254-271, 289-326).
State is the cursor pair `(i, j)`; the loop runs while `j < total`,
processes the slice `[i, j)`, advances `i := j, j := i + B`, and, still
inside the loop body, processes the trailing slice `[i, j)` once
`j >= total`.  `B` is the advance step (`train_batch_size` at every call
site).  Fuel bounds the iteration count; `fuel = total + 1` is enough for
every `B ≥ 1`. -/
def batchLoop (total B : ℕ) : ℕ → ℕ → ℕ → List (ℕ × ℕ)
  | _, _, 0 => []
  | i, j, fuel + 1 =>
    if j < total then
      (i, j) ::
        (if total ≤ j + B then [(j, j + B)]
         else batchLoop total B j (j + B) fuel)
    else []

/-- Index ranges processed by one pass of the training-epoch batch loop
(src/Trainer.py lines 127-181): cursor starts at `(0, train_batch_size)`
and advances by `train_batch_size`. -/
def trainBatches (total B : ℕ) : List (ℕ × ℕ) :=
  batchLoop total B 0 B (total + 1)

/-- Index ranges processed by the `predict` / `predict_grad` batch loop
(src/Trainer.py lines 249-271 and 284-326): the cursor starts at
`(0, predict_batch_size)` but is advanced by `train_batch_size`
(lines 263 and 309). `P` is `predict_batch_size`, `T` is
`train_batch_size`. -/
def predictBatches (total P T : ℕ) : List (ℕ × ℕ) :=
  batchLoop total T 0 P (total + 1)

/-- Indices actually selected by the Python slice `X[i:j]` when
`len(X) = total`: slicing clips at the end of the list. -/
def clipped (total : ℕ) (p : ℕ × ℕ) : List ℕ :=
  List.range' p.1 (min p.2 total - p.1)

/-- Absolute value on ℚ, written out so that concrete instances reduce
inside the kernel. -/
def ratAbs (x : ℚ) : ℚ := if x < 0 then -x else x

/-- Mean of a list of per-batch losses, as `np.mean` computes it:
`np.mean([])` is NaN, modelled as `none`. -/
def meanLoss (xs : List ℚ) : Option ℚ :=
  if xs.isEmpty then none else some (xs.sum / (xs.length : ℚ))

/-- Mean train loss of one epoch given the per-batch loss values the
opaque model produces: one value per batch range the epoch loop
processes. -/
def epochLossOf (total B : ℕ) (batchLoss : ℕ → ℚ) : Option ℚ :=
  meanLoss ((List.range (trainBatches total B).length).map batchLoss)

/-- Overwrite positions `[lo, hi)` of a vector with the opaque model
predictions `f` for those example indices, as the assignment
`yhat[bidx_i:bidx_j] = model_out.squeeze()` does (clipping at the vector
length is automatic). `k` is the index of the head of the remaining
vector. -/
def writeSlice (f : ℕ → ℚ) (lo hi : ℕ) : ℕ → List ℚ → List ℚ
  | _, [] => []
  | k, x :: xs => (if lo ≤ k ∧ k < hi then f k else x) :: writeSlice f lo hi (k + 1) xs

/-- Prediction vector assembled by `Trainer.predict` /
`Trainer.predict_grad` (src/Trainer.py lines 252, 287): initialised to
`torch.zeros(total_obs)` and overwritten slice by slice along the batch
ranges.  `f k` is the opaque model prediction for example `k`. -/
def predictVec (f : ℕ → ℚ) (total P T : ℕ) : List ℚ :=
  (predictBatches total P T).foldl (fun v p => writeSlice f p.1 p.2 0 v)
    (List.replicate total 0)

/-- Pointwise smooth-L1 (Huber) penalty used by `SmoothL1Loss`. -/
def smoothL1One (d : ℚ) : ℚ :=
  if ratAbs d < 1 then d * d / 2 else ratAbs d - 1 / 2

/-- Mean smooth-L1 loss between a prediction vector and a target vector,
as `SmoothL1Loss()(predicted.squeeze(), actual_torch)` computes it. -/
def smoothL1 (pred actual : List ℚ) : ℚ :=
  (List.zipWith (fun p a => smoothL1One (p - a)) pred actual).sum / (pred.length : ℚ)

/-- Embedding of `Trainer._custom_loss` (src/Trainer.py lines 83-92): it
converts `actual` to a tensor and returns the smooth-L1 loss between the
squeezed predictions and that tensor.  The `pretrain_x` and
`pretrain_actual` parameters are accepted exactly as in the source. -/
def custom_loss (predicted actual : List ℚ)
    (pretrain_x pretrain_actual : Option (List ℚ)) : ℚ :=
  smoothL1 predicted actual

/-- Per-invocation mutable state of `Trainer.train` in convergence mode
(`data_name == "megaverid"`, src/Trainer.py lines 114-200).  `bestLoss`
models the float `best_loss` (`none` is the initial `float('inf')`
sentinel, and epoch losses themselves are `Option ℚ` with `none` for
NaN).  `writes` records the epochs at which the checkpoint file was
written; `convergedAt` records the epoch at which `break` fired, if
any. -/
structure ConvState where
  bestLoss : Option ℚ
  trainLosses : List (Option ℚ)
  writes : List ℕ
  convergedAt : Option ℕ
deriving Repr, DecidableEq

/-- Comparison `curr_train_loss < best_loss` on floats: against the
`inf` sentinel any actual number wins, and a NaN loss never wins. -/
def lossImproves : Option ℚ → Option ℚ → Bool
  | none, some _ => true
  | some b, some l => decide (l < b)
  | _, none => false

/-- Convergence test `abs(curr_train_loss - train_losses[-1]) < 0.0001`
on floats: false whenever either side is NaN (`none`), and the second
argument is `train_losses.getLast?` so a missing last element also
yields false (unreachable when `epoch >= 1`). -/
def convDelta : Option ℚ → Option (Option ℚ) → Bool
  | some a, some (some b) => decide (ratAbs (a - b) < 1 / 10000)
  | _, _ => false

/-- Convergence-mode tail of one epoch (src/Trainer.py lines 195-200):
if `epoch` is nonzero and the loss delta test fires, `break`; otherwise
append the loss to `train_losses`. -/
def convEpochTail (curr : Option ℚ) (e : ℕ) (s1 : ConvState) : ConvState :=
  if e ≠ 0 ∧ convDelta curr s1.trainLosses.getLast? = true then
    { s1 with convergedAt := some e }
  else
    { s1 with trainLosses := s1.trainLosses ++ [curr] }

/-- One convergence-mode epoch (src/Trainer.py lines 121-200): a no-op
when the loop has already broken; otherwise checkpoint on strict loss
improvement (lines 190-193), then run the convergence test and append
(lines 196-200).  `L e` is the mean train loss of epoch `e`. -/
def convEpoch (L : ℕ → Option ℚ) (e : ℕ) (s : ConvState) : ConvState :=
  if s.convergedAt.isSome then s
  else
    convEpochTail (L e) e
      (if lossImproves s.bestLoss (L e) then
        { s with bestLoss := L e, writes := s.writes ++ [e] }
       else s)

/-- State of convergence-mode `train` after the first `N` epochs of
`for epoch in range(self.epochs)` have been handled. -/
def convRun (L : ℕ → Option ℚ) : ℕ → ConvState
  | 0 => ⟨none, [], [], none⟩
  | N + 1 => convEpoch L N (convRun L N)

/-- Number of epochs whose bodies actually execute when convergence-mode
`train` is called with `epochs = N`: the breaking epoch executes, later
ones do not. -/
def convEpochsRun (L : ℕ → Option ℚ) (N : ℕ) : ℕ :=
  match (convRun L N).convergedAt with
  | some x => x + 1
  | none => N

/-- Value of `best_loss` before epoch `k` runs: the running minimum of
the non-NaN epoch losses so far, with `none` as the `inf` sentinel. -/
def bestOf (L : ℕ → Option ℚ) : ℕ → Option ℚ
  | 0 => none
  | k + 1 => if lossImproves (bestOf L k) (L k) then L k else bestOf L k

/-- Per-invocation mutable state of `Trainer.train` in validation mode
(src/Trainer.py lines 114-238).  `bestR` models `best_r` with `none` as
the initial `-inf` sentinel; `stoppedAt` records the epoch at which the
bad-count `break` fired, if any. -/
structure ValState where
  bestR : Option ℚ
  trainLosses : List (Option ℚ)
  devLosses : List ℚ
  devRs : List ℚ
  badCount : ℕ
  writes : List ℕ
  stoppedAt : Option ℕ
deriving Repr, DecidableEq

/-- Comparison `curr_dev_r[0] > best_r` on floats: any actual number
beats the `-inf` sentinel. -/
def rImproves : Option ℚ → ℚ → Bool
  | none, _ => true
  | some b, r => decide (b < r)

/-- Bad-epoch counter update (src/Trainer.py lines 227-231): skipped at
epoch 0; otherwise increment on a strict drop of the correlation below
the last recorded `dev_rs[-1]`, and reset to zero otherwise. -/
def valBad (e : ℕ) (r : ℚ) (s1 : ValState) : ℕ :=
  if e = 0 then s1.badCount
  else
    match s1.devRs.getLast? with
    | some p => if r < p then s1.badCount + 1 else 0
    | none => s1.badCount

/-- Stop-or-append tail of one validation-mode epoch (src/Trainer.py
lines 233-238): with the updated bad-epoch count `bad`, either `break`
when it has reached 3, or append correlation, dev loss and train loss to
the histories. -/
def valStop (curr : Option ℚ) (d r : ℚ) (e bad : ℕ) (s1 : ValState) : ValState :=
  if 3 ≤ bad then { s1 with badCount := bad, stoppedAt := some e }
  else
    { s1 with badCount := bad,
              devRs := s1.devRs ++ [r],
              devLosses := s1.devLosses ++ [d],
              trainLosses := s1.trainLosses ++ [curr] }

/-- One validation-mode epoch (src/Trainer.py lines 121-188 and
202-238): a no-op when the loop has already broken; otherwise checkpoint
on strict correlation improvement (lines 215-218), update the bad-epoch
counter (lines 227-231), and either `break` when it reaches 3 (lines
233-234) or append correlation, dev loss and train loss to the histories
(lines 236-238).  `L e`, `D e`, `R e` are the mean train loss, mean dev
loss and dev Pearson correlation of epoch `e`. -/
def valEpoch (L : ℕ → Option ℚ) (D R : ℕ → ℚ) (e : ℕ) (s : ValState) : ValState :=
  if s.stoppedAt.isSome then s
  else
    valStop (L e) (D e) (R e) e
      (valBad e (R e)
        (if rImproves s.bestR (R e) then
          { s with bestR := some (R e), writes := s.writes ++ [e] }
         else s))
      (if rImproves s.bestR (R e) then
        { s with bestR := some (R e), writes := s.writes ++ [e] }
       else s)

/-- State of validation-mode `train` after the first `N` epochs of
`for epoch in range(self.epochs)` have been handled. -/
def valRun (L : ℕ → Option ℚ) (D R : ℕ → ℚ) : ℕ → ValState
  | 0 => ⟨none, [], [], [], 0, [], none⟩
  | N + 1 => valEpoch L D R N (valRun L D R N)

/-- Number of epochs whose bodies actually execute when validation-mode
`train` is called with `epochs = N`. -/
def valEpochsRun (L : ℕ → Option ℚ) (D R : ℕ → ℚ) (N : ℕ) : ℕ :=
  match (valRun L D R N).stoppedAt with
  | some x => x + 1
  | none => N

/-- Value of `best_r` before epoch `k` runs: the running maximum of the
correlations so far, with `none` as the `-inf` sentinel. -/
def rBestOf (R : ℕ → ℚ) : ℕ → Option ℚ
  | 0 => none
  | k + 1 => if rImproves (rBestOf R k) (R k) then some (R k) else rBestOf R k

/-- Value of `bad_count` before epoch `k` runs, assuming every earlier
epoch appended its correlation (no earlier `break`). -/
def badOf (R : ℕ → ℚ) : ℕ → ℕ
  | 0 => 0
  | k + 1 =>
    if k = 0 then 0
    else if R k < R (k - 1) then badOf R k + 1 else 0

/-- When the dataset is not larger than the batch size, the while
condition `bidx_j < total_obs` is false at entry, the loop body (which
contains the trailing-batch emission) never runs, and no batch is
processed. -/
theorem trainBatches_of_total_le (total B : ℕ) (h : total ≤ B) :
    trainBatches total B = [] := by
  unfold trainBatches batchLoop
  simp [Nat.not_lt.mpr h]

lemma lossImproves_none (b : Option ℚ) : lossImproves b none = false := by
  cases b <;> rfl

lemma rangeMap_getLast? {α : Type} (f : ℕ → α) (n : ℕ) (hn : n ≠ 0) :
    ((List.range n).map f).getLast? = some (f (n - 1)) := by
  obtain ⟨m, rfl⟩ := Nat.exists_eq_succ_of_ne_zero hn
  rw [List.range_succ, List.map_append]
  simp

/-- Coverage of the in-loop cursor states: starting from cursor `(i, i + B)`
with `i + B < total`, the concatenated clipped slices of the batches the
loop processes are exactly the indices `[i, total)`. -/
lemma batchLoop_flatten (total B : ℕ) (hB : 0 < B) :
    ∀ fuel i, i + B < total → total - i ≤ fuel →
      ((batchLoop total B i (i + B) fuel).map (clipped total)).flatten
        = List.range' i (total - i) := by
  intro fuel
  induction fuel with
  | zero => intro i h1 h2; omega
  | succ f ih =>
    intro i h1 h2
    rw [batchLoop, if_pos h1]
    by_cases htail : total ≤ i + B + B
    · rw [if_pos htail]
      simp only [List.map_cons, List.map_nil, List.flatten_cons, List.flatten_nil,
        List.append_nil, clipped]
      have hmin1 : min (i + B) total = i + B := Nat.min_eq_left h1.le
      have hmin2 : min (i + B + B) total = total := Nat.min_eq_right htail
      rw [hmin1, hmin2, Nat.add_sub_cancel_left]
      have hsplit : total - i = (total - (i + B)) + B := by omega
      rw [hsplit, ← List.range'_append_1 i B (total - (i + B))]
    · rw [if_neg htail]
      have h1' : (i + B) + B < total := by omega
      have h2' : total - (i + B) ≤ f := by omega
      have hrec := ih (i + B) h1' h2'
      simp only [List.map_cons, List.flatten_cons, clipped]
      rw [hrec]
      have hmin1 : min (i + B) total = i + B := Nat.min_eq_left h1.le
      rw [hmin1, Nat.add_sub_cancel_left]
      have hsplit : total - i = (total - (i + B)) + B := by omega
      rw [hsplit, ← List.range'_append_1 i B (total - (i + B))]

/-- Full characterisation of the convergence-mode run after `N` epochs:
either no `break` has fired and every epoch appended its loss, kept
`best_loss` at the running minimum and wrote a checkpoint exactly on the
strictly improving epochs; or the `break` fired at some epoch `x ≥ 1`,
epoch `x` still performed its checkpoint step but did not append, and no
later epoch ran. -/
lemma convRun_spec (L : ℕ → Option ℚ) :
    ∀ N : ℕ,
      ((convRun L N).convergedAt = none ∧
       (convRun L N).trainLosses = (List.range N).map L ∧
       (convRun L N).bestLoss = bestOf L N ∧
       (convRun L N).writes
         = (List.range N).filter (fun e => lossImproves (bestOf L e) (L e))) ∨
      (∃ x, (convRun L N).convergedAt = some x ∧ 1 ≤ x ∧ x < N ∧
       (convRun L N).trainLosses = (List.range x).map L ∧
       (convRun L N).bestLoss = bestOf L (x + 1) ∧
       (convRun L N).writes
         = (List.range (x + 1)).filter (fun e => lossImproves (bestOf L e) (L e))) := by
  intro N
  induction N with
  | zero => left; simp [convRun, bestOf]
  | succ N ih =>
    have hrun : convRun L (N + 1) = convEpoch L N (convRun L N) := rfl
    rcases ih with ⟨h1, h2, h3, h4⟩ | ⟨x, h1, hx1, hx2, h2, h3, h4⟩
    · -- no break so far: epoch N executes
      have hwr_t : lossImproves (bestOf L N) (L N) = true →
          (convRun L N).writes ++ [N]
            = (List.range (N + 1)).filter (fun e => lossImproves (bestOf L e) (L e)) := by
        intro hb
        rw [List.range_succ, List.filter_append, h4]
        simp [hb]
      have hwr_f : lossImproves (bestOf L N) (L N) = false →
          (convRun L N).writes
            = (List.range (N + 1)).filter (fun e => lossImproves (bestOf L e) (L e)) := by
        intro hb
        rw [List.range_succ, List.filter_append, h4]
        simp [hb]
      rw [hrun, convEpoch, h1]
      simp only [Option.isSome_none, Bool.false_eq_true, if_false, convEpochTail, h3]
      split_ifs with hb hc hc
      · -- improvement and convergence break at epoch N
        dsimp only
        refine Or.inr ⟨N, rfl, Nat.one_le_iff_ne_zero.mpr hc.1, Nat.lt_succ_self N, h2, ?_, ?_⟩
        · rw [bestOf, if_pos hb]
        · exact hwr_t hb
      · -- improvement, no break: append
        dsimp only
        refine Or.inl ⟨rfl, ?_, ?_, hwr_t hb⟩
        · simp [List.range_succ, h2]
        · rw [bestOf, if_pos hb]
      · -- no improvement, convergence break at epoch N
        dsimp only
        refine Or.inr ⟨N, rfl, Nat.one_le_iff_ne_zero.mpr hc.1, Nat.lt_succ_self N, h2, ?_, ?_⟩
        · rw [bestOf, if_neg, h3]; simp [hb]
        · exact hwr_f (Bool.of_not_eq_true hb)
      · -- no improvement, no break: append
        dsimp only
        refine Or.inl ⟨h1, ?_, ?_, ?_⟩
        · simp [List.range_succ, h2]
        · rw [bestOf, if_neg, h3]; simp [hb]
        · exact hwr_f (Bool.of_not_eq_true hb)
    · -- already broken at epoch x: epoch N is a no-op
      rw [hrun, convEpoch, h1]
      simp only [Option.isSome_some, if_true]
      exact Or.inr ⟨x, h1, hx1, Nat.lt_succ_of_lt hx2, h2, h3, h4⟩

lemma valBad_eq_badOf (R : ℕ → ℚ) (N : ℕ) (s1 : ValState)
    (hrs : s1.devRs = (List.range N).map R) (hbc : s1.badCount = badOf R N) :
    valBad N (R N) s1 = badOf R (N + 1) := by
  rcases Nat.eq_zero_or_pos N with h0 | hpos
  · subst h0; simp [valBad, badOf, hbc]
  · have hN : N ≠ 0 := Nat.pos_iff_ne_zero.mp hpos
    rw [valBad, if_neg hN, hrs, rangeMap_getLast? R N hN]
    rw [badOf, if_neg hN, hbc]

/-- Full characterisation of the validation-mode run after `N` epochs:
either no `break` has fired, every epoch appended its correlation, dev
loss and train loss, `best_r` is the running maximum, checkpoints were
written exactly on the strictly improving epochs and the bad-epoch count
never reached 3; or the `break` fired at the first epoch `x ≥ 1` at
which the bad-epoch count reached 3, epoch `x` still performed its
checkpoint step but appended nothing, and no later epoch ran. -/
lemma valRun_spec (L : ℕ → Option ℚ) (D R : ℕ → ℚ) :
    ∀ N : ℕ,
      ((valRun L D R N).stoppedAt = none ∧
       (valRun L D R N).trainLosses = (List.range N).map L ∧
       (valRun L D R N).devLosses = (List.range N).map D ∧
       (valRun L D R N).devRs = (List.range N).map R ∧
       (valRun L D R N).bestR = rBestOf R N ∧
       (valRun L D R N).badCount = badOf R N ∧
       (valRun L D R N).writes
         = (List.range N).filter (fun e => rImproves (rBestOf R e) (R e)) ∧
       (∀ j, j < N → badOf R (j + 1) < 3)) ∨
      (∃ x, (valRun L D R N).stoppedAt = some x ∧ 1 ≤ x ∧ x < N ∧
       (valRun L D R N).trainLosses = (List.range x).map L ∧
       (valRun L D R N).devLosses = (List.range x).map D ∧
       (valRun L D R N).devRs = (List.range x).map R ∧
       (valRun L D R N).bestR = rBestOf R (x + 1) ∧
       (valRun L D R N).badCount = badOf R (x + 1) ∧
       3 ≤ badOf R (x + 1) ∧
       (valRun L D R N).writes
         = (List.range (x + 1)).filter (fun e => rImproves (rBestOf R e) (R e)) ∧
       (∀ j, j < x → badOf R (j + 1) < 3)) := by
  intro N
  induction N with
  | zero => left; simp [valRun, rBestOf, badOf]
  | succ N ih =>
    have hrun : valRun L D R (N + 1) = valEpoch L D R N (valRun L D R N) := rfl
    rcases ih with ⟨h1, h2, h3, h4, h5, h6, h7, h8⟩ |
      ⟨x, h1, hx1, hx2, h2, h3, h4, h5, h6, h7, h8, h9⟩
    · -- not stopped yet: epoch N executes
      have hwr_t : rImproves (rBestOf R N) (R N) = true →
          (valRun L D R N).writes ++ [N]
            = (List.range (N + 1)).filter (fun e => rImproves (rBestOf R e) (R e)) := by
        intro hb
        rw [List.range_succ, List.filter_append, h7]
        simp [hb]
      have hwr_f : rImproves (rBestOf R N) (R N) = false →
          (valRun L D R N).writes
            = (List.range (N + 1)).filter (fun e => rImproves (rBestOf R e) (R e)) := by
        intro hb
        rw [List.range_succ, List.filter_append, h7]
        simp [hb]
      rw [hrun, valEpoch, h1]
      simp only [Option.isSome_none, Bool.false_eq_true, if_false, h5]
      split_ifs with hb
      · -- checkpoint written at epoch N
        rw [valBad_eq_badOf R N _ (by dsimp only; exact h4) (by dsimp only; exact h6)]
        rw [valStop]
        split_ifs with hstop
        · -- bad count reached 3: break at epoch N
          dsimp only
          have hN : N ≠ 0 := by
            intro h0
            rw [h0] at hstop
            simp [badOf] at hstop
          refine Or.inr ⟨N, rfl, Nat.one_le_iff_ne_zero.mpr hN, Nat.lt_succ_self N,
            h2, h3, h4, ?_, rfl, hstop, hwr_t hb, h8⟩
          rw [rBestOf, if_pos hb]
        · -- continue: append everything
          dsimp only
          refine Or.inl ⟨rfl, ?_, ?_, ?_, ?_, rfl, hwr_t hb, ?_⟩
          · simp [List.range_succ, h2]
          · simp [List.range_succ, h3]
          · simp [List.range_succ, h4]
          · rw [rBestOf, if_pos hb]
          · intro j hj
            rcases Nat.lt_succ_iff_lt_or_eq.mp hj with hj' | hj'
            · exact h8 j hj'
            · subst hj'; omega
      · -- no checkpoint at epoch N
        rw [valBad_eq_badOf R N _ h4 h6]
        rw [valStop]
        split_ifs with hstop
        · dsimp only
          have hN : N ≠ 0 := by
            intro h0
            rw [h0] at hstop
            simp [badOf] at hstop
          refine Or.inr ⟨N, rfl, Nat.one_le_iff_ne_zero.mpr hN, Nat.lt_succ_self N,
            h2, h3, h4, ?_, rfl, hstop, hwr_f (Bool.of_not_eq_true hb), h8⟩
          rw [rBestOf, if_neg, h5]
          simp [hb]
        · dsimp only
          refine Or.inl ⟨h1, ?_, ?_, ?_, ?_, rfl, hwr_f (Bool.of_not_eq_true hb), ?_⟩
          · simp [List.range_succ, h2]
          · simp [List.range_succ, h3]
          · simp [List.range_succ, h4]
          · rw [rBestOf, if_neg, h5]
            simp [hb]
          · intro j hj
            rcases Nat.lt_succ_iff_lt_or_eq.mp hj with hj' | hj'
            · exact h8 j hj'
            · subst hj'; omega
    · -- already stopped at epoch x: epoch N is a no-op
      rw [hrun, valEpoch, h1]
      simp only [Option.isSome_some, if_true]
      exact Or.inr ⟨x, h1, hx1, Nat.lt_succ_of_lt hx2, h2, h3, h4, h5, h6, h7, h8, h9⟩

/-- Strictly beating the running-minimum loss sentinel is the same as
strictly beating every earlier non-NaN epoch loss. -/
lemma lossImproves_bestOf_iff (L : ℕ → Option ℚ) (e : ℕ) :
    ∀ l : ℚ, lossImproves (bestOf L e) (some l) = true ↔
      ∀ i, i < e → ∀ li, L i = some li → l < li := by
  induction e with
  | zero => intro l; simp [bestOf, lossImproves]
  | succ e ih =>
    intro l
    rw [bestOf]
    cases hm : L e with
    | none =>
      rw [lossImproves_none, if_neg (by simp)]
      rw [ih l]
      constructor
      · intro h i hi li hli
        rcases Nat.lt_succ_iff_lt_or_eq.mp hi with hi' | hi'
        · exact h i hi' li hli
        · subst hi'; rw [hm] at hli; cases hli
      · intro h i hi li hli
        exact h i (Nat.lt_succ_of_lt hi) li hli
    | some m =>
      by_cases hb : lossImproves (bestOf L e) (some m) = true
      · rw [if_pos hb]
        have hPm := (ih m).mp hb
        constructor
        · intro h i hi li hli
          have hlm : l < m := by
            simpa [lossImproves] using h
          rcases Nat.lt_succ_iff_lt_or_eq.mp hi with hi' | hi'
          · exact lt_trans hlm (hPm i hi' li hli)
          · subst hi'
            rw [hm] at hli
            injection hli with hli'
            rw [← hli']
            exact hlm
        · intro h
          have hlm : l < m := h e (Nat.lt_succ_self e) m hm
          simpa [lossImproves] using hlm
      · rw [if_neg hb]
        rw [ih l]
        have hnPm : ¬ ∀ i, i < e → ∀ li, L i = some li → m < li := fun hc => hb ((ih m).mpr hc)
        push_neg at hnPm
        obtain ⟨i0, hi0, li0, hli0, hmli0⟩ := hnPm
        constructor
        · intro h i hi li hli
          rcases Nat.lt_succ_iff_lt_or_eq.mp hi with hi' | hi'
          · exact h i hi' li hli
          · subst hi'
            rw [hm] at hli
            injection hli with hli'
            rw [← hli']
            exact lt_of_lt_of_le (h i0 hi0 li0 hli0) hmli0
        · intro h i hi li hli
          exact h i (Nat.lt_succ_of_lt hi) li hli

/-- Strictly beating the running-maximum correlation sentinel is the
same as strictly beating every earlier epoch correlation. -/
lemma rImproves_rBestOf_iff (R : ℕ → ℚ) (e : ℕ) :
    ∀ r : ℚ, rImproves (rBestOf R e) r = true ↔ ∀ i, i < e → R i < r := by
  induction e with
  | zero => intro r; simp [rBestOf, rImproves]
  | succ e ih =>
    intro r
    rw [rBestOf]
    by_cases hb : rImproves (rBestOf R e) (R e) = true
    · rw [if_pos hb]
      have hPm := (ih (R e)).mp hb
      constructor
      · intro h i hi
        have hlm : R e < r := by simpa [rImproves] using h
        rcases Nat.lt_succ_iff_lt_or_eq.mp hi with hi' | hi'
        · exact lt_trans (hPm i hi') hlm
        · subst hi'; exact hlm
      · intro h
        have hlm : R e < r := h e (Nat.lt_succ_self e)
        simpa [rImproves] using hlm
    · rw [if_neg hb]
      rw [ih r]
      have hnPm : ¬ ∀ i, i < e → R i < R e := fun hc => hb ((ih (R e)).mpr hc)
      push_neg at hnPm
      obtain ⟨i0, hi0, hge⟩ := hnPm
      constructor
      · intro h i hi
        rcases Nat.lt_succ_iff_lt_or_eq.mp hi with hi' | hi'
        · exact h i hi'
        · subst hi'; exact lt_of_le_of_lt hge (h i0 hi0)
      · intro h i hi
        exact h i (Nat.lt_succ_of_lt hi)

lemma convRun_writes_eq (L : ℕ → Option ℚ) (N : ℕ) :
    (convRun L N).writes
      = (List.range (convEpochsRun L N)).filter (fun e => lossImproves (bestOf L e) (L e)) := by
  rcases convRun_spec L N with ⟨h1, _, _, h4⟩ | ⟨x, h1, _, _, _, _, h4⟩ <;>
    simp [convEpochsRun, h1, h4]

lemma valRun_writes_eq (L : ℕ → Option ℚ) (D R : ℕ → ℚ) (N : ℕ) :
    (valRun L D R N).writes
      = (List.range (valEpochsRun L D R N)).filter (fun e => rImproves (rBestOf R e) (R e)) := by
  rcases valRun_spec L D R N with ⟨h1, _, _, _, _, _, h7, _⟩ |
    ⟨x, h1, _, _, _, _, _, _, _, _, h7, _⟩ <;>
    simp [valEpochsRun, h1, h7]

/-- C1: the claim says that for `0 < total ≤ train_batch_size` one pass
of the training-epoch batch loop processes exactly one batch spanning
`[0, total)`.  On the code the trailing-batch emission sits inside the
while body (src/Trainer.py lines 160-180), so when the while condition
`bidx_j < total_obs` is false at entry no batch at all is processed:
with the default batch size 64 a dataset of 1 example (and likewise a
dataset of exactly 64) yields an empty batch sequence, and no example is
ever fed to the model. -/
theorem c1_small_dataset_zero_batches :
    trainBatches 1 64 = [] ∧ trainBatches 64 64 = [] := by decide

/-- C2, counterexample: the claim quantifies over all `total, B > 0`,
but at `total = 2, B = 2` the batch loop produces no batch, so the
clipped slices do not cover the dataset. -/
theorem c2_total_le_batch_uncovered :
    ((trainBatches 2 2).map (clipped 2)).flatten ≠ List.range 2 := by decide

/-- C2, amended: for every `total > B > 0` the index ranges of the
batches produced by the training batch loop, with the final range
clipped to the dataset length, concatenate in order to exactly the index
sequence `0, 1, ..., total - 1`: every example appears exactly once and
none is skipped (for `total ≤ B` no batch is produced at all). -/
theorem c2_batches_cover_exactly (total B : ℕ) (hB : 0 < B) (h : B < total) :
    ((trainBatches total B).map (clipped total)).flatten = List.range total := by
  have h0 : 0 + B < total := by omega
  have hfuel : total - 0 ≤ total + 1 := by omega
  have hmain := batchLoop_flatten total B hB (total + 1) 0 h0 hfuel
  rw [Nat.zero_add, Nat.sub_zero] at hmain
  rw [trainBatches, List.range_eq_range']
  exact hmain

/-- C2, witness: the spec scenario with 5 examples and batch size 2,
where the batches are `[0,2)`, `[2,4)` and `[4,6)` clipped to `[4,5)`. -/
theorem c2_batches_cover_exactly_witness :
    ((trainBatches 5 2).map (clipped 5)).flatten = List.range 5 :=
  c2_batches_cover_exactly 5 2 (by decide) (by decide)

/-- C3: the claim says every batch after the first in `predict` /
`predict_grad` is sliced at the inference batch size.  In the code the
cursor is advanced by `self.train_batch_size` (src/Trainer.py lines 263
and 309), so with inference batch size 2, train batch size 3 and 10
examples the processed ranges are `[0,2), [2,5), [5,8), [8,11)`: only
the first batch has the inference size. -/
theorem c3_predict_advances_by_train_batch_size :
    predictBatches 10 2 3 = [(0, 2), (2, 5), (5, 8), (8, 11)] := by decide

/-- C4, counterexample: validation mode with correlation sequence
`0.5, 0.4, 0.3, 0.2` (scaled by 10 here; only order matters).  Epoch 3
runs — it is the epoch on which the bad-epoch counter reaches 3 and sets
the stop — but the `break` (src/Trainer.py lines 233-234) precedes the
appends (lines 236-238), so its correlation, dev loss and train loss are
missing from the returned histories: they hold epochs 0-2 only, not 4
entries as the claim requires. -/
theorem c4_stopping_epoch_not_appended :
    (valRun (fun _ => some 1) (fun _ => 1) (fun k => [(5:ℚ), 4, 3, 2].getD k 0) 4).stoppedAt
        = some 3 ∧
    (valRun (fun _ => some 1) (fun _ => 1) (fun k => [(5:ℚ), 4, 3, 2].getD k 0) 4).devRs
        = [5, 4, 3] ∧
    (valRun (fun _ => some 1) (fun _ => 1) (fun k => [(5:ℚ), 4, 3, 2].getD k 0) 4).devLosses.length
        = 3 ∧
    (valRun (fun _ => some 1) (fun _ => 1) (fun k => [(5:ℚ), 4, 3, 2].getD k 0) 4).trainLosses.length
        = 3 := by decide

/-- C4, amended: in validation mode the dev correlation, dev loss and
train loss are appended at the end of every epoch that runs except the
epoch on which the bad-epoch counter reaches 3: there the loop breaks
before appending, so when the run stops at epoch `e` each history holds
exactly the `e` values of epochs `0 .. e-1`. -/
theorem c4_histories_at_stop (L : ℕ → Option ℚ) (D R : ℕ → ℚ) (N e : ℕ)
    (h : (valRun L D R N).stoppedAt = some e) :
    (valRun L D R N).devRs = (List.range e).map R ∧
    (valRun L D R N).devLosses = (List.range e).map D ∧
    (valRun L D R N).trainLosses = (List.range e).map L ∧
    (valRun L D R N).devRs.length = e := by
  rcases valRun_spec L D R N with ⟨h1, _⟩ |
    ⟨x, h1, _, _, h2, h3, h4, _, _, _, _, _⟩
  · rw [h1] at h; cases h
  · rw [h1] at h
    injection h with hxe
    subst hxe
    exact ⟨h4, h3, h2, by rw [h4]; simp⟩

/-- C4, witness: the amended statement applied to the
`0.5, 0.4, 0.3, 0.2` scenario, which stops at epoch 3 with three
recorded correlations. -/
theorem c4_histories_at_stop_witness :
    (valRun (fun _ => some 1) (fun _ => 1) (fun k => [(5:ℚ), 4, 3, 2].getD k 0) 4).devRs
      = (List.range 3).map (fun k => [(5:ℚ), 4, 3, 2].getD k 0) :=
  (c4_histories_at_stop (fun _ => some 1) (fun _ => 1)
    (fun k => [(5:ℚ), 4, 3, 2].getD k 0) 4 3 (by decide)).1

/-- C5: the claim says every call of `train` with `epochs ≥ 1` writes at
least one checkpoint because epoch 0 beats the infinite sentinel.  In
convergence mode with a dataset of 1 example and the default train batch
size 64 the epoch runs zero batches, `np.mean([])` is NaN, and
`NaN < inf` is false (src/Trainer.py line 190), so no checkpoint is ever
written. -/
theorem c5_no_checkpoint_small_dataset :
    epochLossOf 1 64 (fun _ => 0) = none ∧
    (convRun (fun _ => epochLossOf 1 64 (fun _ => 0)) 1).writes = [] := by decide

/-- C6: in every epoch that runs, the checkpoint file is written exactly
when the tracked best metric strictly improves: in convergence mode when
the epoch train loss is an actual number strictly below every earlier
epoch train loss (NaN losses never improve and never become the best),
and in validation mode when the dev Pearson correlation is strictly
above every earlier epoch correlation. -/
theorem c6_checkpoint_iff_strict_improvement (L : ℕ → Option ℚ) (D R : ℕ → ℚ) (N e : ℕ) :
    (e < convEpochsRun L N →
      (e ∈ (convRun L N).writes ↔
        ∃ l, L e = some l ∧ ∀ i, i < e → ∀ li, L i = some li → l < li)) ∧
    (e < valEpochsRun L D R N →
      (e ∈ (valRun L D R N).writes ↔ ∀ i, i < e → R i < R e)) := by
  constructor
  · intro he
    rw [convRun_writes_eq, List.mem_filter]
    constructor
    · rintro ⟨_, hp⟩
      have hp' : lossImproves (bestOf L e) (L e) = true := hp
      cases hm : L e with
      | none => rw [hm, lossImproves_none] at hp'; cases hp'
      | some l =>
        rw [hm] at hp'
        exact ⟨l, rfl, (lossImproves_bestOf_iff L e l).mp hp'⟩
    · rintro ⟨l, hl, hall⟩
      refine ⟨List.mem_range.mpr he, ?_⟩
      show lossImproves (bestOf L e) (L e) = true
      rw [hl]
      exact (lossImproves_bestOf_iff L e l).mpr hall
  · intro he
    rw [valRun_writes_eq, List.mem_filter]
    constructor
    · rintro ⟨_, hp⟩
      exact (rImproves_rBestOf_iff R e (R e)).mp hp
    · intro hall
      exact ⟨List.mem_range.mpr he, (rImproves_rBestOf_iff R e (R e)).mpr hall⟩

/-- C6, witness: epoch 0 runs in both modes and writes the checkpoint,
as its metric vacuously beats all (zero) earlier epochs. -/
theorem c6_checkpoint_iff_strict_improvement_witness :
    0 ∈ (convRun (fun _ => some 5) 1).writes ∧
    0 ∈ (valRun (fun _ => some 1) (fun _ => 1) (fun _ => 1) 1).writes := by
  constructor
  · exact ((c6_checkpoint_iff_strict_improvement (fun _ => some 5) (fun _ => 1)
      (fun _ => 1) 1 0).1 (by decide)).mpr
      ⟨5, rfl, fun i hi => absurd hi (Nat.not_lt_zero i)⟩
  · exact ((c6_checkpoint_iff_strict_improvement (fun _ => some 1) (fun _ => 1)
      (fun _ => 1) 1 0).2 (by decide)).mpr
      (fun i hi => absurd hi (Nat.not_lt_zero i))

/-- C7, counterexample: with a constant dev correlation the correlation
fails to improve at every epoch after the first, yet the bad-epoch
counter is reset on every non-drop (src/Trainer.py lines 228-231, the
`else` resets on equality), so a 10-epoch run never stops early and runs
all 10 epochs — the claim as stated would forbid any epoch after the
third. -/
theorem c7_equal_correlation_never_stops :
    (valRun (fun _ => some 1) (fun _ => 1) (fun _ => 1) 10).stoppedAt = none ∧
    (valRun (fun _ => some 1) (fun _ => 1) (fun _ => 1) 10).devRs.length = 10 := by decide

/-- C7, amended: in validation mode the loop never runs a further epoch
once the dev correlation has strictly dropped below the previous
recorded correlation for 3 consecutive epochs after the first: if the
correlation drops at epochs `e`, `e+1` and `e+2` (with `e ≥ 1`), at most
`e + 3` epochs run. -/
theorem c7_three_drops_stop (L : ℕ → Option ℚ) (D R : ℕ → ℚ) (N e : ℕ)
    (he : 1 ≤ e) (hd1 : R e < R (e - 1)) (hd2 : R (e + 1) < R e)
    (hd3 : R (e + 2) < R (e + 1)) :
    valEpochsRun L D R N ≤ e + 3 := by
  have hb1 : badOf R (e + 1) = badOf R e + 1 := by
    rw [badOf, if_neg (by omega), if_pos hd1]
  have hb2 : badOf R (e + 2) = badOf R (e + 1) + 1 := by
    show badOf R ((e + 1) + 1) = _
    rw [badOf, if_neg (by omega), if_pos (by simpa using hd2)]
  have hb3 : badOf R (e + 3) = badOf R (e + 2) + 1 := by
    show badOf R ((e + 2) + 1) = _
    rw [badOf, if_neg (by omega), if_pos (by simpa using hd3)]
  rcases valRun_spec L D R N with ⟨h1, _, _, _, _, _, _, hlt⟩ |
    ⟨x, h1, _, _, _, _, _, _, _, _, _, hlt⟩
  · simp only [valEpochsRun, h1]
    by_contra hN
    push_neg at hN
    have hfin : badOf R (e + 3) < 3 := hlt (e + 2) (by omega)
    omega
  · simp only [valEpochsRun, h1]
    by_contra hN
    push_neg at hN
    have hfin : badOf R (e + 3) < 3 := hlt (e + 2) (by omega)
    omega

/-- C7, witness: the amended statement applied to the spec scenario
`0.5, 0.4, 0.3, 0.2` (drops at epochs 1, 2, 3), where at most 4 epochs
run even with `epochs = 10`. -/
theorem c7_three_drops_stop_witness :
    valEpochsRun (fun _ => some 1) (fun _ => 1)
      (fun k => [(5:ℚ), 4, 3, 2].getD k 0) 10 ≤ 4 :=
  c7_three_drops_stop (fun _ => some 1) (fun _ => 1)
    (fun k => [(5:ℚ), 4, 3, 2].getD k 0) 10 1
    (by decide) (by decide) (by decide) (by decide)

/-- C8: the scalar returned by `Trainer._custom_loss` is the same for
every value of the `pretrain_x` and `pretrain_actual` arguments
(including `None`): the body (src/Trainer.py lines 89-92) computes only
the smooth-L1 loss of `predicted` against `actual` and never touches the
pretraining inputs. -/
theorem c8_pretrain_args_no_influence (predicted actual : List ℚ)
    (px pa px2 pa2 : Option (List ℚ)) :
    custom_loss predicted actual px pa = custom_loss predicted actual px2 pa2 := rfl

/-- C9: the claim says entry `k` of the prediction vector returned by
`predict` holds the model prediction for example `k` for every dataset
size and inference batch size.  With 1 example and the default inference
batch size 128 the batch loop processes no batch, so the vector stays at
its `torch.zeros` initialisation: the returned entry is 0 although the
model predicts 1 for every example (the mean loss is likewise
`np.mean([])`, NaN). -/
theorem c9_predictions_unwritten_small_dataset :
    predictBatches 1 128 64 = [] ∧
    predictVec (fun _ => 1) 1 128 64 = [0] := by decide

/-- C10: in convergence mode, when the loss-delta stopping test fires at
epoch `e` the `break` (src/Trainer.py lines 196-198) precedes the append
(line 200), so the returned `train_losses` holds exactly the `e` losses
of epochs `0 .. e-1` and omits the converged epoch's own loss; the test
only fires from epoch 1 on. -/
theorem c10_converged_epoch_loss_omitted (L : ℕ → Option ℚ) (N e : ℕ)
    (h : (convRun L N).convergedAt = some e) :
    1 ≤ e ∧ (convRun L N).trainLosses.length = e ∧
    (convRun L N).trainLosses = (List.range e).map L := by
  rcases convRun_spec L N with ⟨h1, _, _, _⟩ | ⟨x, h1, hx1, _, h2, _, _⟩
  · rw [h1] at h; cases h
  · rw [h1] at h
    injection h with hxe
    subst hxe
    exact ⟨hx1, by rw [h2]; simp, h2⟩

/-- C10, witness: a constant loss sequence converges at epoch 1 (delta
zero), and the returned history holds exactly the epoch-0 loss. -/
theorem c10_converged_epoch_loss_omitted_witness :
    (convRun (fun _ => some 5) 3).trainLosses
      = (List.range 1).map (fun _ => some (5:ℚ)) :=
  (c10_converged_epoch_loss_omitted (fun _ => some 5) 3 1
    (by norm_num [convRun, convEpoch, convEpochTail, convDelta, lossImproves, ratAbs])).2.2

end WSD
